import Mathlib

/-!
Shallow embedding of `src/Raspberry_Pi/ftmq_bridge/ftmq_mqtt_bridge.py`:
the FTMQ serial frame codec (the `parse_FTMQ` per-byte state machine and
the 7-byte frame layout written by `on_message`), the topic lookup table,
and the two table-driven translation directions (`parse_FTMQ`'s publish
loop and `on_message`'s pack-and-write chain).

Modelling conventions:
* Bytes are `Nat` (the Python values are 0..255; well-formedness bounds are
  carried as hypotheses where a theorem needs them).
* Python `float` values destined for / produced by `struct.pack('<f', ·)` /
  `struct.unpack('<f', ·)` are represented by their IEEE-754 binary32 bit
  pattern (a `Nat < 2^32`): pack and unpack merely copy those 32 bits
  to/from little-endian byte order, so the bit-pattern view is exact.
  Conversion of other doubles to float32 is not modelled.
* The lookup table (`topics_lookup['lookup_table'].items()`) is a list of
  entries iterated in insertion order; it is never mutated by the code.
* JSON payloads arriving in `on_message` are modelled post-parse: `none`
  stands for a payload `json.loads` rejects (or that is not an object),
  `some fields` for a parsed JSON object.
-/

namespace FTMQ

/-- `HEADER_CHAR = 0x40` from the source. -/
def HEADER_CHAR : Nat := 0x40

/-- `FTMQ_PKT_LEN = 5` from the source: id + 4 data bytes. -/
def FTMQ_PKT_LEN : Nat := 5

/-- A complete FTMQ frame: identifier byte plus 4 payload bytes
(`id = self.read_buffer[0]`, `value = self.read_buffer[1:]`). -/
structure Frame where
  identifier : Nat
  payload : List Nat
  deriving Repr, DecidableEq

/-- The `type` field of a lookup-table entry: `'int32'`, `'float'`, `'array'`. -/
inductive ValueType where
  | int32
  | float
  | array
  deriving Repr, DecidableEq

/-- One row of the lookup table: the dict key (MQTT topic) and the
`id` / `type` / `name` fields of its value. -/
structure TopicEntry where
  topic : String
  id : Nat
  vtype : ValueType
  name : String
  deriving Repr, DecidableEq

/-- The lookup table, in dict insertion order (`.items()`). -/
abbrev LookupTable := List TopicEntry

/-- A JSON value as relevant to the bridge: an integer-valued number, a
float-valued number given by its binary32 bit pattern, a list of integers,
or a string. -/
inductive JValue where
  | num (i : Int)
  | fbits (b : Nat)
  | arr (xs : List Int)
  | str (s : String)
  deriving Repr, DecidableEq

/-- Little-endian 4-byte encoding of a natural number (mod 2^32), the byte
layout produced by `struct.pack('<i', ·)` / `struct.pack('<f', ·)`. -/
def natToLE4 (n : Nat) : List Nat :=
  [n % 256, n / 256 % 256, n / 256 / 256 % 256, n / 256 / 256 / 256 % 256]

/-- Little-endian read of 4 bytes, the layout consumed by
`struct.unpack('<i', ·)` / `struct.unpack('<f', ·)`. -/
def leToNat4 (bs : List Nat) : Nat :=
  match bs with
  | [b0, b1, b2, b3] => b0 + 256 * b1 + 65536 * b2 + 16777216 * b3
  | _ => 0

/-- `struct.pack('<i', i)`: little-endian two's-complement encoding of a
signed 32-bit integer. -/
def int32ToLE (i : Int) : List Nat := natToLE4 (i % (2 ^ 32)).toNat

/-- `struct.unpack('<i', bs)`: little-endian two's-complement decoding. -/
def leToInt32 (bs : List Nat) : Int :=
  let n := leToNat4 bs
  if n < 2 ^ 31 then (n : Int) else (n : Int) - 2 ^ 32

/-- The `try` body of `on_message` after the JSON value has been extracted:
`struct.pack('<i', value)`, `struct.pack('<f', value)`, or byte-wise
assignment into a `bytearray(4)`.  `none` models the exceptions Python
raises there (`struct.error` for a non-integer or out-of-range value,
`TypeError` / `IndexError` / `ValueError` for the array case). -/
def pack : ValueType → JValue → Option (List Nat)
  | .int32, .num i => if -(2 ^ 31) ≤ i ∧ i < 2 ^ 31 then some (int32ToLE i) else none
  | .int32, _ => none
  | .float, .fbits b => some (natToLE4 b)
  | .float, _ => none
  | .array, .arr xs =>
    if 4 ≤ xs.length ∧ ∀ x ∈ xs.take 4, 0 ≤ x ∧ x < 256 then
      some ((xs.take 4).map Int.toNat)
    else none
  | .array, _ => none

/-- The typed decode in `parse_FTMQ`'s publish loop: `struct.unpack('<i')`,
`struct.unpack('<f')`, or `list(bytearray)` on the 4 payload bytes. -/
def decoded : ValueType → List Nat → JValue
  | .int32, bs => .num (leToInt32 bs)
  | .float, bs => .fbits (leToNat4 bs)
  | .array, bs => .arr (bs.map Int.ofNat)

/-- Decoder state: `self.waiting_header` and `self.read_buffer`. -/
structure ParserState where
  waiting_header : Nat
  read_buffer : List Nat
  deriving Repr, DecidableEq

/-- The state set up by `__init__` and restored after each emitted frame. -/
def ParserState.reset : ParserState := ⟨0, []⟩

/-- One call of `parse_FTMQ(self, byte)`, with frame emission made explicit:
while `waiting_header < 2` a header byte increments the counter and any
other byte is dropped; otherwise the byte is appended to `read_buffer`,
and when the buffer reaches `FTMQ_PKT_LEN` the frame
`(read_buffer[0], read_buffer[1:])` is emitted and the state reset. -/
def parse_FTMQ (s : ParserState) (byte : Nat) : ParserState × Option Frame :=
  if s.waiting_header < 2 then
    if byte = HEADER_CHAR then
      ({ s with waiting_header := s.waiting_header + 1 }, none)
    else
      (s, none)
  else
    let buf := s.read_buffer ++ [byte]
    if buf.length = FTMQ_PKT_LEN then
      (ParserState.reset, some { identifier := buf.headD 0, payload := buf.tail })
    else
      ({ s with read_buffer := buf }, none)

/-- `poll_FTMQ`'s loop `for byte in data: self.parse_FTMQ(byte)`, collecting
the frames emitted along the way. -/
def feed (s : ParserState) : List Nat → ParserState × List Frame
  | [] => (s, [])
  | b :: bs =>
    let step := parse_FTMQ s b
    let rest := feed step.1 bs
    (rest.1, step.2.toList ++ rest.2)

/-- Feeding the same decoder instance a sequence of chunks across several
`poll_FTMQ` calls. -/
def feedChunks (s : ParserState) : List (List Nat) → ParserState × List Frame
  | [] => (s, [])
  | c :: cs =>
    let step := feed s c
    let rest := feedChunks step.1 cs
    (rest.1, step.2 ++ rest.2)

/-- The publish loop at the end of `parse_FTMQ`: for every table entry `t`
with `t[1]['id'] == id` (no break — every match fires), publish on topic
`t[0]` the object `{t[1]['name']: data}`.  A publish action is modelled as
(topic, field name, decoded value). -/
def framePublishes (tbl : LookupTable) (f : Frame) : List (String × String × JValue) :=
  (tbl.filter fun t => t.id == f.identifier).map
    fun t => (t.topic, t.name, decoded t.vtype f.payload)

/-- The 7 bytes written to the serial port for one frame, in both
`on_message` and `start_FTMQ`: two `HEADER_CHAR` bytes, the identifier,
then the 4 data bytes. -/
def encode (id : Nat) (data : List Nat) : List Nat :=
  HEADER_CHAR :: HEADER_CHAR :: id :: data

/-- An inbound broker message: its topic and its payload after
`json.loads(msg.payload.decode('utf-8'))` — `none` when that parse fails
or does not yield an object. -/
structure Msg where
  topic : String
  payload : Option (List (String × JValue))

/-- `json.loads(...)[key]`: `none` models both a failed parse and a
`KeyError` on a missing key. -/
def jsonLookup (payload : Option (List (String × JValue))) (key : String) : Option JValue :=
  payload.bind fun fields => (fields.find? fun kv => kv.1 == key).map Prod.snd

/-- The fallible chain inside `on_message`'s `try`: extract the value at
`t[1]['name']` from the JSON payload, then pack it per `t[1]['type']`. -/
def translate (e : TopicEntry) (m : Msg) : Option (List Nat) :=
  (jsonLookup m.payload e.name).bind (pack e.vtype)

/-- `on_message(self, client, userdata, msg)`: scan the table for the first
entry whose topic equals `msg.topic` (topics are dict keys, and the loop
`return`s after the first match); on a match run the `try` chain and write
the 7 frame bytes, or — when any step raises — catch, print, and write
nothing.  The decoder state and lookup table are returned to make explicit
that the handler never touches them. -/
def on_message (tbl : LookupTable) (s : ParserState) (m : Msg) :
    ParserState × LookupTable × List Nat :=
  match tbl.find? fun t => t.topic == m.topic with
  | none => (s, tbl, [])
  | some e =>
    match translate e m with
    | some data => (s, tbl, encode e.id data)
    | none => (s, tbl, [])

/-- A value is representable in a `ValueType` when it denotes a point of
that type exactly: any integer for `Int32` (`pack` checks the range), a
genuine 32-bit pattern for `Float32`, a 4-element list for `ByteArray4`. -/
def JValue.representable : JValue → Prop
  | .num _ => True
  | .fbits b => b < 2 ^ 32
  | .arr xs => xs.length = 4
  | .str _ => True

/-- A lookup table with two entries sharing identifier `1`, as the yaml
configuration format permits (topics are dict keys, identifiers are free). -/
def dupTable : LookupTable :=
  [⟨"topic/a", 1, .int32, "a"⟩, ⟨"topic/b", 1, .int32, "b"⟩]

/-- The decoder-state invariant maintained by `parse_FTMQ`: the header
counter never exceeds 2 and `read_buffer` never retains 5 bytes (a fifth
byte completes a frame and empties the buffer within the same call). -/
def StateInv (s : ParserState) : Prop :=
  s.waiting_header ≤ 2 ∧ s.read_buffer.length ≤ 4

end FTMQ

namespace FTMQ

/-- Feeding a complete 7-byte frame from the reset state emits exactly that
frame and returns to the reset state. -/
theorem feed_frame (i a b c d : Nat) :
    feed ParserState.reset [HEADER_CHAR, HEADER_CHAR, i, a, b, c, d] =
      (ParserState.reset, [⟨i, [a, b, c, d]⟩]) := by
  simp [feed, parse_FTMQ, ParserState.reset, HEADER_CHAR, FTMQ_PKT_LEN]

/-- The per-byte decoder loop splits over list concatenation: the final
state threads through and the emitted frames concatenate. -/
theorem feed_append (s : ParserState) (xs ys : List Nat) :
    feed s (xs ++ ys) =
      ((feed (feed s xs).1 ys).1, (feed s xs).2 ++ (feed (feed s xs).1 ys).2) := by
  induction xs generalizing s with
  | nil => simp [feed]
  | cons x xs ih => simp [feed, ih, List.append_assoc]

/-- While still hunting for the header, non-sync bytes are dropped without
any state change. -/
theorem feed_garbage (s : ParserState) (g : List Nat) (hs : s.waiting_header < 2)
    (hg : ∀ x ∈ g, x ≠ HEADER_CHAR) : feed s g = (s, []) := by
  induction g with
  | nil => rfl
  | cons x xs ih =>
    have hx : x ≠ HEADER_CHAR := hg x (List.mem_cons_self x xs)
    simp [feed, parse_FTMQ, hs, hx, ih (fun y hy => hg y (List.mem_cons_of_mem x hy))]

/-- Reading back 4 little-endian bytes inverts the 4-byte encoding mod 2^32. -/
theorem leToNat4_natToLE4 (n : Nat) : leToNat4 (natToLE4 n) = n % 2 ^ 32 := by
  simp [leToNat4, natToLE4]
  omega

theorem map_toNat_ofNat (xs : List Int) (h : ∀ x ∈ xs, 0 ≤ x) :
    (xs.map Int.toNat).map Int.ofNat = xs := by
  induction xs with
  | nil => rfl
  | cons x xs ih => simp_all [Int.toNat_of_nonneg]

/-- `pack` always produces exactly the 4 data bytes of a frame. -/
theorem pack_length (vt : ValueType) (v : JValue) (data : List Nat)
    (hp : pack vt v = some data) : data.length = 4 := by
  cases vt <;> cases v <;> simp [pack, int32ToLE, natToLE4] at hp <;> try omega
  · obtain ⟨-, h⟩ := hp
    subst h
    simp [natToLE4, int32ToLE]
  · subst hp
    simp [natToLE4]
  · obtain ⟨⟨h4, -⟩, h⟩ := hp
    subst h
    simp [h4]

/-- Unpacking inverts packing for any representable value: the typed decode
in `parse_FTMQ` recovers the value `on_message` packed. -/
theorem pack_decoded (vt : ValueType) (v : JValue) (data : List Nat)
    (hv : v.representable) (hp : pack vt v = some data) : decoded vt data = v := by
  cases vt <;> cases v <;> simp [pack] at hp
  · obtain ⟨⟨h1, h2⟩, h⟩ := hp
    subst h
    simp only [decoded, int32ToLE, leToInt32, leToNat4_natToLE4, JValue.num.injEq]
    split <;> omega
  · subst hp
    simp only [JValue.representable] at hv
    simp only [decoded, leToNat4_natToLE4, JValue.fbits.injEq]
    omega
  · rename_i xs
    obtain ⟨⟨h4, hall⟩, h⟩ := hp
    subst h
    simp only [JValue.representable] at hv
    have hxs : xs.take 4 = xs := List.take_of_length_le (by omega)
    rw [hxs] at hall
    have htake : (xs.map Int.toNat).take 4 = xs.map Int.toNat :=
      List.take_of_length_le (by simp [hv])
    simp only [decoded, htake, JValue.arr.injEq]
    exact map_toNat_ofNat xs fun x hx => (hall x hx).1

theorem length_four_eq (xs : List Nat) (h : xs.length = 4) :
    ∃ a b c d, xs = [a, b, c, d] := by
  rcases xs with _ | ⟨a, _ | ⟨b, _ | ⟨c, _ | ⟨d, _ | ⟨e, t⟩⟩⟩⟩⟩ <;>
    simp only [List.length] at h <;>
    first
    | exact ⟨a, b, c, d, rfl⟩
    | omega

end FTMQ
namespace FTMQ

/-- C2: for every identifier, representable value, and table entry of the
matching value type, encoding the pair into the 7-byte frame (two 0x40 sync
bytes, identifier, 4 payload bytes) and feeding those bytes to a freshly
reset decoder yields exactly one Frame, whose translation reproduces the
original (field name, value) pair under the same table entry. -/
theorem c2_encode_decode_roundtrip (tbl : LookupTable) (e : TopicEntry) (v : JValue)
    (data : List Nat) (he : e ∈ tbl) (hv : v.representable)
    (hp : pack e.vtype v = some data) :
    feed ParserState.reset (encode e.id data) = (ParserState.reset, [⟨e.id, data⟩]) ∧
    decoded e.vtype data = v ∧
    (e.topic, e.name, v) ∈ framePublishes tbl ⟨e.id, data⟩ := by
  obtain ⟨a, b, c, d, rfl⟩ := length_four_eq data (pack_length _ _ _ hp)
  refine ⟨feed_frame e.id a b c d, pack_decoded _ _ _ hv hp, ?_⟩
  have hmem : e ∈ tbl.filter fun t => t.id == (Frame.mk e.id [a, b, c, d]).identifier := by
    simp [List.mem_filter, he]
  have hm := List.mem_map_of_mem
    (fun t => (t.topic, t.name, decoded t.vtype (Frame.mk e.id [a, b, c, d]).payload)) hmem
  have h2 : decoded e.vtype [a, b, c, d] = v := pack_decoded _ _ _ hv hp
  simpa [framePublishes, h2] using hm

theorem c2_witness :
    feed ParserState.reset (encode 3 [5, 0, 0, 0]) = (ParserState.reset, [⟨3, [5, 0, 0, 0]⟩]) ∧
    decoded ValueType.int32 [5, 0, 0, 0] = .num 5 ∧
    ("temp", "val", JValue.num 5) ∈
      framePublishes [⟨"temp", 3, ValueType.int32, "val"⟩] ⟨3, [5, 0, 0, 0]⟩ :=
  c2_encode_decode_roundtrip [⟨"temp", 3, .int32, "val"⟩] ⟨"temp", 3, .int32, "val"⟩
    (.num 5) [5, 0, 0, 0] (by decide) trivial (by decide)

/-- C3: from the reset state, any finite prefix of non-sync bytes followed
by a valid 7-byte frame emits exactly one Frame with that identifier and
payload, and leaves the decoder state reset. -/
theorem c3_sync_recovery (g : List Nat) (i a b c d : Nat)
    (hg : ∀ x ∈ g, x ≠ HEADER_CHAR) :
    feed ParserState.reset (g ++ encode i [a, b, c, d]) =
      (ParserState.reset, [⟨i, [a, b, c, d]⟩]) := by
  rw [feed_append, feed_garbage _ g (by decide) hg]
  simpa using feed_frame i a b c d

theorem c3_witness :
    feed ParserState.reset ([1, 2, 3] ++ encode 5 [6, 7, 8, 9]) =
      (ParserState.reset, [⟨5, [6, 7, 8, 9]⟩]) :=
  c3_sync_recovery [1, 2, 3] 5 6 7 8 9 (by decide)

/-- C4: once `waiting_header` has reached 2, every byte is appended to the
buffer regardless of value (no header check), and the 7 bytes encoding
identifier 0x40 with payload [0x40,0,0,0] decode to exactly that one
Frame. -/
theorem c4_no_false_split :
    (∀ (s : ParserState) (b : Nat), 2 ≤ s.waiting_header → s.read_buffer.length < 4 →
        parse_FTMQ s b = ({ s with read_buffer := s.read_buffer ++ [b] }, none)) ∧
    feed ParserState.reset (encode HEADER_CHAR [HEADER_CHAR, 0, 0, 0]) =
      (ParserState.reset, [⟨HEADER_CHAR, [HEADER_CHAR, 0, 0, 0]⟩]) := by
  constructor
  · intro s b h2 hlen
    have hw : ¬ s.waiting_header < 2 := by omega
    have hne : ¬ (s.read_buffer.length + 1 = 5) := by omega
    simp [parse_FTMQ, hw, FTMQ_PKT_LEN, hne]
  · exact feed_frame HEADER_CHAR HEADER_CHAR 0 0 0

theorem c4_witness : parse_FTMQ ⟨2, [64]⟩ 64 = (⟨2, [64, 64]⟩, none) :=
  c4_no_false_split.1 ⟨2, [64]⟩ 64 (by decide) (by decide)

/-- C10: the two header sync bytes need not be adjacent: a non-sync byte
between them is discarded without resetting `waiting_header`, so
[0x40, x, 0x40, id, p1, p2, p3, p4] with `x ≠ 0x40` emits exactly the frame
(id, [p1,p2,p3,p4]). -/
theorem c10_nonadjacent_sync (x : Nat) (hx : x ≠ HEADER_CHAR) (i a b c d : Nat) :
    feed ParserState.reset [HEADER_CHAR, x, HEADER_CHAR, i, a, b, c, d] =
      (ParserState.reset, [⟨i, [a, b, c, d]⟩]) := by
  have hx64 : x ≠ 64 := hx
  simp [feed, parse_FTMQ, hx64, ParserState.reset, HEADER_CHAR, FTMQ_PKT_LEN]

theorem c10_witness :
    feed ParserState.reset [HEADER_CHAR, 0, HEADER_CHAR, 1, 2, 3, 4, 5] =
      (ParserState.reset, [⟨1, [2, 3, 4, 5]⟩]) :=
  c10_nonadjacent_sync 0 (by decide) 1 2 3 4 5

end FTMQ
namespace FTMQ

/-- C1 counterexample: the claim that the outbound translation publishes
using only the first matching entry is false — `parse_FTMQ`'s publish loop
has no break, so a table with two entries sharing identifier 1 yields two
publish actions for one decoded frame, not exactly one. -/
theorem c1_counterexample :
    framePublishes dupTable ⟨1, [0, 0, 0, 0]⟩ =
      [("topic/a", "a", JValue.num 0), ("topic/b", "b", JValue.num 0)] ∧
    (framePublishes dupTable ⟨1, [0, 0, 0, 0]⟩).length ≠ 1 := by
  decide

/-- C1 amended: the outbound translation publishes once per entry whose
identifier equals the frame's identifier, in table order; a frame matching
k entries yields exactly k publishes, each carrying that entry's own topic
and field name. -/
theorem c1_publish_per_match (tbl : LookupTable) (f : Frame) :
    (framePublishes tbl f).length = (tbl.filter fun t => t.id == f.identifier).length ∧
    ∀ e ∈ tbl, e.id = f.identifier →
      (e.topic, e.name, decoded e.vtype f.payload) ∈ framePublishes tbl f := by
  constructor
  · simp [framePublishes]
  · intro e he hid
    exact List.mem_map_of_mem _ (List.mem_filter.mpr ⟨he, by simp [hid]⟩)

theorem c1_publish_per_match_witness :
    ("topic/a", "a", decoded ValueType.int32 [0, 0, 0, 0]) ∈
      framePublishes dupTable ⟨1, [0, 0, 0, 0]⟩ :=
  (c1_publish_per_match dupTable ⟨1, [0, 0, 0, 0]⟩).2 ⟨"topic/a", 1, .int32, "a"⟩
    (by decide) rfl

/-- C5: when an inbound message's topic matches a table entry but the
translation chain fails (malformed JSON, missing field key, or a value not
representable in the entry's type), the handler catches the failure and
returns normally with no serial write, leaving the decoder state and the
lookup table unchanged. -/
theorem c5_translation_failure_dropped (tbl : LookupTable) (s : ParserState) (m : Msg)
    (e : TopicEntry) (htop : tbl.find? (fun t => t.topic == m.topic) = some e)
    (hfail : translate e m = none) :
    on_message tbl s m = (s, tbl, []) := by
  simp [on_message, htop, hfail]

theorem c5_witness :
    on_message [⟨"t", 1, ValueType.int32, "a"⟩] ParserState.reset ⟨"t", none⟩ =
      (ParserState.reset, [⟨"t", 1, ValueType.int32, "a"⟩], []) :=
  c5_translation_failure_dropped _ _ _ ⟨"t", 1, .int32, "a"⟩ rfl rfl

theorem parse_FTMQ_inv (s : ParserState) (b : Nat) (h : StateInv s) :
    StateInv (parse_FTMQ s b).1 := by
  obtain ⟨h1, h2⟩ := h
  by_cases hw : s.waiting_header < 2
  · by_cases hb : b = HEADER_CHAR <;> simp [parse_FTMQ, StateInv, hw, hb] <;> omega
  · by_cases hl : s.read_buffer.length + 1 = 5
    · simp [parse_FTMQ, StateInv, hw, FTMQ_PKT_LEN, hl, ParserState.reset]
    · simp [parse_FTMQ, StateInv, hw, FTMQ_PKT_LEN, hl]
      omega

theorem feed_inv (s : ParserState) (bs : List Nat) (h : StateInv s) :
    StateInv (feed s bs).1 := by
  induction bs generalizing s with
  | nil => exact h
  | cons b bs ih =>
    simp only [feed]
    exact ih _ (parse_FTMQ_inv s b h)

theorem parse_FTMQ_emit_reset (s : ParserState) (b : Nat) (f : Frame)
    (h : (parse_FTMQ s b).2 = some f) : (parse_FTMQ s b).1 = ParserState.reset := by
  by_cases hw : s.waiting_header < 2
  · by_cases hb : b = HEADER_CHAR <;> simp [parse_FTMQ, hw, hb] at h
  · by_cases hl : s.read_buffer.length + 1 = 5
    · simp [parse_FTMQ, hw, FTMQ_PKT_LEN, hl]
    · simp [parse_FTMQ, hw, FTMQ_PKT_LEN, hl] at h

/-- C6: from the reset state, after any sequence of bytes the decoder state
satisfies the invariant (`waiting_header` in {0,1,2}, buffer at most 5
bytes), and any per-byte step that emits a Frame leaves the state exactly
at {sync_count=0, buffer=empty}. -/
theorem c6_state_invariant :
    (∀ bs : List Nat, (feed ParserState.reset bs).1.waiting_header ≤ 2 ∧
        (feed ParserState.reset bs).1.read_buffer.length ≤ 5) ∧
    ∀ (s : ParserState) (b : Nat) (f : Frame),
      (parse_FTMQ s b).2 = some f → (parse_FTMQ s b).1 = ParserState.reset := by
  constructor
  · intro bs
    obtain ⟨ha, hb⟩ := feed_inv ParserState.reset bs ⟨by decide, by decide⟩
    exact ⟨ha, by omega⟩
  · exact fun s b f => parse_FTMQ_emit_reset s b f

theorem c6_witness : (parse_FTMQ ⟨2, [1, 2, 3, 4]⟩ 5).1 = ParserState.reset :=
  c6_state_invariant.2 ⟨2, [1, 2, 3, 4]⟩ 5 ⟨1, [2, 3, 4, 5]⟩ (by decide)

/-- C7: decoding is insensitive to chunking — feeding any partition of a
byte sequence across successive calls emits the same frames in the same
order as feeding it whole; in particular two back-to-back frames fed one
byte at a time emit exactly those two Frames in order. -/
theorem c7_chunking_insensitive (s : ParserState) (cs : List (List Nat)) :
    feedChunks s cs = feed s cs.flatten ∧
    feedChunks ParserState.reset
        ((encode 1 [2, 3, 4, 5] ++ encode 6 [7, 8, 9, 10]).map fun b => [b]) =
      (ParserState.reset, [⟨1, [2, 3, 4, 5]⟩, ⟨6, [7, 8, 9, 10]⟩]) := by
  refine ⟨?_, rfl⟩
  induction cs generalizing s with
  | nil => simp [feedChunks, feed]
  | cons c cs ih => simp [feedChunks, List.flatten, feed_append, ih]

/-- C8: a decoded Frame whose identifier matches no entry produces no
publish action (and the decoder still resets after a full frame), and a
broker message whose topic matches no entry produces no serial write; both
are silent non-errors. -/
theorem c8_unknown_ignored (tbl : LookupTable) (f : Frame) (m : Msg) (s : ParserState) :
    ((∀ e ∈ tbl, e.id ≠ f.identifier) → framePublishes tbl f = []) ∧
    ((∀ e ∈ tbl, e.topic ≠ m.topic) → on_message tbl s m = (s, tbl, [])) ∧
    ∀ i a b c d : Nat,
      feed ParserState.reset (encode i [a, b, c, d]) =
        (ParserState.reset, [⟨i, [a, b, c, d]⟩]) := by
  refine ⟨?_, ?_, fun i a b c d => feed_frame i a b c d⟩
  · intro h
    have hf : tbl.filter (fun t => t.id == f.identifier) = [] := by
      rw [List.filter_eq_nil_iff]
      intro t ht
      simpa using h t ht
    simp [framePublishes, hf]
  · intro h
    have hf : tbl.find? (fun t => t.topic == m.topic) = none := by
      rw [List.find?_eq_none]
      intro t ht
      simpa using h t ht
    simp [on_message, hf]

theorem c8_witness :
    framePublishes [⟨"t", 2, ValueType.int32, "n"⟩] ⟨3, [0, 0, 0, 0]⟩ = [] ∧
    on_message [⟨"t", 2, ValueType.int32, "n"⟩] ParserState.reset ⟨"u", none⟩ =
      (ParserState.reset, [⟨"t", 2, ValueType.int32, "n"⟩], []) :=
  ⟨(c8_unknown_ignored [⟨"t", 2, .int32, "n"⟩] ⟨3, [0, 0, 0, 0]⟩ ⟨"u", none⟩
      ParserState.reset).1 (by decide),
   (c8_unknown_ignored [⟨"t", 2, .int32, "n"⟩] ⟨3, [0, 0, 0, 0]⟩ ⟨"u", none⟩
      ParserState.reset).2.1 (by decide)⟩

/-- C9: the typed conversions are little-endian: Int32 −1 encodes to and
decodes from FF FF FF FF; Float32 3.5 (bit pattern 0x40600000) round-trips
exactly, its bytes being 00 00 60 40; ByteArray4 [1,2,3,4] round-trips
exactly, preserving order. -/
theorem c9_type_conversions :
    pack .int32 (.num (-1)) = some [0xFF, 0xFF, 0xFF, 0xFF] ∧
    decoded .int32 [0xFF, 0xFF, 0xFF, 0xFF] = .num (-1) ∧
    pack .float (.fbits 0x40600000) = some [0x00, 0x00, 0x60, 0x40] ∧
    decoded .float [0x00, 0x00, 0x60, 0x40] = .fbits 0x40600000 ∧
    (pack .array (.arr [1, 2, 3, 4])).map (decoded .array) = some (.arr [1, 2, 3, 4]) := by
  decide

end FTMQ
